import Mathlib

/-!
Verification of the DHCP reservation-list codec and reconciliation engine of
the minecraftManager repository.

Python strings are modelled as `List Char` (every split in the source is on a
single character, and Python indexes strings by code point, exactly as
`List Char` does).  The embedded functions follow the source:

* `parseStaticlist`   — `_parse_staticlist`   (src/router-service/app.py:65-159)
* `formatStaticlist`  — `_format_staticlist`  (src/router-service/app.py:162-202)
* `updateStaticlist`  — the pure core of `_update` inside `_add_reservation`
                        (src/router-service/app.py:282-320); `updateResult`
                        adds the empty-result guard (app.py:319-320) as an
                        `Except`, whose `ok` value is the string sent to the
                        router.
* `restoreParse`      — the inline parser of `restore_dhcp`
                        (src/restore_all_dhcp.py:100-112)
* `bulkReconcile`     — the add-new-servers loop of `restore_dhcp`
                        (src/restore_all_dhcp.py:117-142)
-/

/-- Python `str` whitespace characters (space, tab, newline, carriage return,
vertical tab, form feed), as used by `str.strip()`. -/
def isPySpace (c : Char) : Bool :=
  c = ' ' || c = '\t' || c = '\n' || c = '\r' || c = '\x0b' || c = '\x0c'

/-- Python `s.strip()`: remove whitespace from both ends. -/
def pyStrip (s : List Char) : List Char :=
  ((s.dropWhile isPySpace).reverse.dropWhile isPySpace).reverse

/-- Python `s.upper()` (ASCII letters, as in the MAC addresses involved). -/
def pyUpper (s : List Char) : List Char :=
  s.map Char.toUpper

/-- Python `s.lower()`. -/
def pyLower (s : List Char) : List Char :=
  s.map Char.toLower

/-- Python `s.startswith(pat)`. -/
def startsWithChars : List Char → List Char → Bool
  | _, [] => true
  | [], _ :: _ => false
  | x :: xs, y :: ys => x = y && startsWithChars xs ys

/-- Python `pat in s` (substring containment). -/
def containsChars (s pat : List Char) : Bool :=
  match s with
  | [] => startsWithChars [] pat
  | _ :: xs => startsWithChars s pat || containsChars xs pat

/-- Python `s.split(c)` for a one-character separator: `"".split(c) = [""]`,
separators at the ends produce empty fields. -/
def splitOnChar (c : Char) : List Char → List (List Char)
  | [] => [[]]
  | x :: xs =>
      if x = c then [] :: splitOnChar c xs
      else
        match splitOnChar c xs with
        | r :: rs => (x :: r) :: rs
        | [] => [[x]]

/-- Python `sep.join(xs)`. -/
def joinWith (sep : List Char) : List (List Char) → List Char
  | [] => []
  | [x] => x
  | x :: y :: rest => x ++ sep ++ joinWith sep (y :: rest)

/-- A DHCP reservation record as built by the parsers: a MAC address, an IP
address and a friendly name (dict with keys `mac`, `ip`, `name` in the
source). -/
structure Reservation where
  mac : List Char
  ip : List Char
  name : List Char
deriving DecidableEq, Repr

/-- One entry of the bracketed `<MAC>IP>NAME` grammar
(app.py:86-95): skip empty/whitespace entries, require at least three
`>`-separated fields, strip each, upper-case the MAC, and drop the entry
when MAC or IP is empty. -/
def parseEntryBracket (entry : List Char) : Option Reservation :=
  if pyStrip entry = [] then none
  else
    match splitOnChar '>' entry with
    | p0 :: p1 :: p2 :: _ =>
        let mac := pyUpper (pyStrip p0)
        let ip := pyStrip p1
        let name := pyStrip p2
        if mac.isEmpty || ip.isEmpty then none else some ⟨mac, ip, name⟩
    | _ => none

/-- The bracketed grammar: records are separated by `<` (app.py:85-95). -/
def parseBracketed (raw : List Char) : List Reservation :=
  (splitOnChar '<' raw).filterMap parseEntryBracket

/-- Separator detection for the colon grammar (app.py:107-125): tab, then
semicolon, then newline, then space (space only when raw has strictly more
spaces than colons), else none (single entry). -/
def detectSeparator (raw : List Char) : Option Char :=
  if raw.contains '\t' then some '\t'
  else if raw.contains ';' then some ';'
  else if raw.contains '\n' then some '\n'
  else if raw.contains ' ' = true ∧ raw.count ':' < raw.count ' ' then some ' '
  else none

/-- One entry of the colon grammar (app.py:133-147): skip empty/whitespace
entries, split on `:`, require at least two fields; field 0 stripped and
upper-cased is the MAC, field 1 stripped is the IP, field 2 stripped (when
present) is the name; drop the entry when MAC or IP is empty. -/
def parseEntryColon (entry : List Char) : Option Reservation :=
  if pyStrip entry = [] then none
  else
    match splitOnChar ':' entry with
    | p0 :: p1 :: rest =>
        let mac := pyUpper (pyStrip p0)
        let ip := pyStrip p1
        let name := match rest with | p2 :: _ => pyStrip p2 | [] => []
        if mac.isEmpty || ip.isEmpty then none else some ⟨mac, ip, name⟩
    | _ => none

/-- The colon grammar (app.py:104-151): split on the detected separator (or
treat the whole input as a single entry) and parse each entry. -/
def parseColon (raw : List Char) : List Reservation :=
  let entries :=
    match detectSeparator raw with
    | some sep => splitOnChar sep raw
    | none => [raw]
  entries.filterMap parseEntryColon

/-- `_parse_staticlist` (app.py:65-159): empty/whitespace input gives `[]`;
when raw contains both `<` and `>` the bracketed grammar is tried first and
its result returned if non-empty; otherwise, when raw contains `:`, the colon
grammar is tried; otherwise no entries. -/
def parseStaticlist (raw : List Char) : List Reservation :=
  if pyStrip raw = [] then []
  else
    let bracketed :=
      if raw.contains '<' && raw.contains '>' then parseBracketed raw else []
    if !bracketed.isEmpty then bracketed
    else if raw.contains ':' then parseColon raw
    else []

/-- `_format_staticlist` (app.py:162-202): strip each field, drop records with
empty MAC or IP, render `MAC:IP:NAME`, join with tabs (empty list gives the
empty string). -/
def formatStaticlist (reservations : List Reservation) : List Char :=
  joinWith ['\t']
    (reservations.filterMap fun r =>
      let mac := pyStrip r.mac
      let ip := pyStrip r.ip
      let name := pyStrip r.name
      if mac.isEmpty || ip.isEmpty then none
      else some (mac ++ [':'] ++ ip ++ [':'] ++ name))

/-- The replace loop of `_update` (app.py:293-305): find the first
tab-separated entry starting with the search key and replace it; `none` when
no entry matches (in which case the source leaves `raw` unchanged). -/
def updateEntries (pre repl : List Char) : List (List Char) → Option (List (List Char))
  | [] => none
  | e :: es =>
      if startsWithChars e pre then some (repl :: es)
      else
        match updateEntries pre repl es with
        | some es2 => some (e :: es2)
        | none => none

/-- The pure string transform of `_update` (app.py:285-314): upper-case the
candidate MAC; if `MAC:` occurs as a substring of raw, split raw on tabs and
replace the first entry starting with `MAC:` (joining back with tabs), leaving
raw unchanged when no entry starts with it; if `MAC:` does not occur, append
`MAC:ip:name` (with a tab when raw is non-empty). -/
def updateStaticlist (raw mac ip name : List Char) : List Char :=
  let macN := pyUpper mac
  let macSearch := macN ++ [':']
  let newEntry := macN ++ [':'] ++ ip ++ [':'] ++ name
  if containsChars raw macSearch then
    match updateEntries macSearch newEntry (splitOnChar '\t' raw) with
    | some es => joinWith ['\t'] es
    | none => raw
  else
    if raw.isEmpty then newEntry else raw ++ ['\t'] ++ newEntry

/-- `_update` including the data-loss guard (app.py:316-339): when the final
string is empty a `ValueError` is raised before any command is sent; otherwise
the final string is the `dhcp_staticlist` payload sent to the router and the
operation reports success. -/
def updateResult (raw mac ip name : List Char) : Except String (List Char) :=
  let final := updateStaticlist raw mac ip name
  if final.isEmpty then Except.error "final staticlist is empty - refusing to write"
  else Except.ok final

/-- The inline parser of `restore_dhcp` (src/restore_all_dhcp.py:100-112):
empty raw gives `[]`; otherwise split on tabs; each non-empty entry containing
`:` is split on `:`; with at least two fields, field 0 upper-cased is the MAC,
field 1 is the IP, field 2 (when present) is the name (no stripping). -/
def restoreParse (raw : List Char) : List Reservation :=
  if raw.isEmpty then []
  else
    (splitOnChar '\t' raw).filterMap fun entry =>
      if !entry.isEmpty && entry.contains ':' then
        match splitOnChar ':' entry with
        | p0 :: p1 :: rest =>
            some ⟨pyUpper p0, p1, match rest with | p2 :: _ => p2 | [] => []⟩
        | _ => none
      else none

/-- A candidate server entry, a `(mac, ip, name)` tuple of
`SERVERS_TO_RESTORE` (src/restore_all_dhcp.py:11-70). -/
structure Candidate where
  mac : List Char
  ip : List Char
  name : List Char
deriving DecidableEq, Repr

/-- The add-new-servers loop of `restore_dhcp` (src/restore_all_dhcp.py:117-142)
on a running state `(reservations, added_count, skipped_count)`: a candidate
with empty MAC is skipped and counted; a candidate whose lower-cased MAC or
whose IP matches some reservation in the current list is skipped without
counting; otherwise the candidate is appended (MAC upper-cased) and the added
counter incremented. -/
def bulkAux : List Reservation × Nat × Nat → List Candidate → List Reservation × Nat × Nat
  | st, [] => st
  | (res, added, skipped), c :: cs =>
      if c.mac.isEmpty then bulkAux (res, added, skipped + 1) cs
      else if res.any fun r => pyLower r.mac == pyLower c.mac || r.ip == c.ip then
        bulkAux (res, added, skipped) cs
      else
        bulkAux (res ++ [⟨pyUpper c.mac, c.ip, c.name⟩], added + 1, skipped) cs

/-- Bulk reconciliation of `restore_dhcp`: run the loop from the parsed
existing reservations with both counters at zero. -/
def bulkReconcile (existing : List Reservation) (cands : List Candidate) :
    List Reservation × Nat × Nat :=
  bulkAux (existing, 0, 0) cands

/-- No two records of the list have case-insensitively equal MAC addresses
(the comparison the source uses: `res["mac"].lower() == mac.lower()`). -/
def macsUnique : List Reservation → Bool
  | [] => true
  | r :: rs => (rs.all fun s => !(pyLower r.mac == pyLower s.mac)) && macsUnique rs

/-- The records that bulk reconciliation appends, stated independently of the
running counters: candidates are processed in list order; an empty-MAC or
already-matching candidate contributes nothing, any other candidate
contributes its record (MAC upper-cased) and joins the list that later
candidates are matched against.  Used to state the C7 frame property. -/
def newlyAdded (cur : List Reservation) : List Candidate → List Reservation
  | [] => []
  | c :: cs =>
      if c.mac.isEmpty then newlyAdded cur cs
      else if cur.any fun r => pyLower r.mac == pyLower c.mac || r.ip == c.ip then
        newlyAdded cur cs
      else
        ⟨pyUpper c.mac, c.ip, c.name⟩ ::
          newlyAdded (cur ++ [⟨pyUpper c.mac, c.ip, c.name⟩]) cs

/-! ## Helper lemmas -/

theorem char_toNat_ofNat_valid (m : Nat) (h : m.isValidChar) : (Char.ofNat m).toNat = m := by
  simp only [Char.ofNat, dif_pos h, Char.ofNatAux, Char.toNat]
  rfl

/-- Lower-casing after upper-casing an ASCII character is plain lower-casing. -/
theorem char_toLower_toUpper (c : Char) : c.toUpper.toLower = c.toLower := by
  unfold Char.toUpper Char.toLower
  by_cases h : c.toNat ≥ 97 ∧ c.toNat ≤ 122
  · have hv : Nat.isValidChar (c.toNat - 32) := Or.inl (by omega)
    have ht : (Char.ofNat (c.toNat - 32)).toNat = c.toNat - 32 :=
      char_toNat_ofNat_valid _ hv
    simp only [if_pos h, ht]
    rw [if_pos (by omega), if_neg (by omega)]
    have h32 : c.toNat - 32 + 32 = c.toNat := by omega
    rw [h32, Char.ofNat_toNat]
  · rw [if_neg h]

/-- `s.upper().lower() == s.lower()` for the modelled strings. -/
theorem pyLower_pyUpper (s : List Char) : pyLower (pyUpper s) = pyLower s := by
  simp only [pyLower, pyUpper, List.map_map]
  exact List.map_congr_left fun c _ => char_toLower_toUpper c

/-- The replace loop finds nothing when no entry starts with the search key. -/
theorem updateEntries_eq_none (pre repl : List Char) (es : List (List Char))
    (h : ∀ e ∈ es, startsWithChars e pre = false) :
    updateEntries pre repl es = none := by
  induction es with
  | nil => rfl
  | cons e es ih =>
      simp only [updateEntries, h e (by simp)]
      rw [ih fun x hx => h x (by simp [hx])]
      simp

/-- The replace loop replaces exactly the first entry starting with the search
key and leaves every other entry in place. -/
theorem updateEntries_replace (pre repl : List Char) (before : List (List Char))
    (e : List Char) (after : List (List Char))
    (hb : ∀ b ∈ before, startsWithChars b pre = false)
    (he : startsWithChars e pre = true) :
    updateEntries pre repl (before ++ e :: after) = some (before ++ repl :: after) := by
  induction before with
  | nil => simp [updateEntries, he]
  | cons b bs ih =>
      simp only [List.cons_append, updateEntries, hb b (by simp), List.append_eq]
      rw [ih fun x hx => hb x (by simp [hx])]
      simp

/-- An empty string contains no non-empty substring. -/
theorem containsChars_nil_of_ne (pat : List Char) (h : pat ≠ []) :
    containsChars [] pat = false := by
  cases pat with
  | nil => exact absurd rfl h
  | cons y ys => rfl

/-- A string containing `upper(mac) ++ ":"` is non-empty. -/
theorem ne_nil_of_containsChars_macSearch (raw mac : List Char)
    (h : containsChars raw (pyUpper mac ++ [':']) = true) : raw ≠ [] := by
  intro hraw
  subst hraw
  rw [containsChars_nil_of_ne _ (by simp)] at h
  exact Bool.false_ne_true h

/-- An element on which the predicate fails survives `dropWhile`. -/
theorem mem_dropWhile_of_not {p : Char → Bool} {l : List Char} {c : Char}
    (hc : c ∈ l) (hp : p c = false) : c ∈ l.dropWhile p := by
  induction l with
  | nil => cases hc
  | cons x xs ih =>
      rw [List.dropWhile_cons]
      by_cases hx : p x = true
      · rw [if_pos hx]
        rcases List.mem_cons.mp hc with h | h
        · subst h
          rw [hp] at hx
          exact absurd hx (by simp)
        · exact ih h
      · rw [if_neg hx]
        exact hc

/-- A string containing a non-whitespace character does not strip to empty. -/
theorem pyStrip_ne_nil_of_mem {l : List Char} {c : Char}
    (hc : c ∈ l) (hp : isPySpace c = false) : pyStrip l ≠ [] := by
  intro h
  have h2 : c ∈ (l.dropWhile isPySpace).reverse :=
    List.mem_reverse.mpr (mem_dropWhile_of_not hc hp)
  have h3 : c ∈ ((l.dropWhile isPySpace).reverse.dropWhile isPySpace) :=
    mem_dropWhile_of_not h2 hp
  rw [show ((l.dropWhile isPySpace).reverse.dropWhile isPySpace) = [] from by
    simpa [pyStrip] using congrArg List.reverse h] at h3
  cases h3

/-! ## Claim theorems -/

/-- C1: the claim states that decoding
`"AA:BB:CC:DD:EE:FF:192.168.1.5:dns01\tBB:CC:DD:EE:FF:AA:192.168.1.6:dns02"`
yields the two records `{mac: AA:BB:CC:DD:EE:FF, ip: 192.168.1.5, name: dns01}`
and `{mac: BB:CC:DD:EE:FF:AA, ip: 192.168.1.6, name: dns02}`.  This theorem
evaluates both parsers of the repository at that input: each tab-separated
entry is split on every colon and the first three fields are taken as
mac/ip/name, so the MAC address (which itself contains colons) is torn apart
and decode instead returns `{mac: "AA", ip: "BB", name: "CC"}` and
`{mac: "BB", ip: "CC", name: "DD"}`, contradicting the parser's own docstring
(`MAC:IP:name\tMAC:IP:name\t... (preferred)`). -/
theorem c1_decode_scenario1_mangles_macs :
    parseStaticlist "AA:BB:CC:DD:EE:FF:192.168.1.5:dns01\tBB:CC:DD:EE:FF:AA:192.168.1.6:dns02".toList =
      [⟨"AA".toList, "BB".toList, "CC".toList⟩, ⟨"BB".toList, "CC".toList, "DD".toList⟩] ∧
    restoreParse "AA:BB:CC:DD:EE:FF:192.168.1.5:dns01\tBB:CC:DD:EE:FF:AA:192.168.1.6:dns02".toList =
      [⟨"AA".toList, "BB".toList, "CC".toList⟩, ⟨"BB".toList, "CC".toList, "DD".toList⟩] := by
  constructor <;> decide

/-- C2: the claim states that for every sequence `R` of well-formed records,
`encode(decode(encode(R))) = encode(R)` and `decode(encode(R))` equals `R` up
to normalization.  This theorem refutes it at the single well-formed record
`R = [{mac: AA:BB:CC:DD:EE:FF, ip: 192.168.1.5, name: dns01}]`:
`encode(R) = "AA:BB:CC:DD:EE:FF:192.168.1.5:dns01"`, but decoding that string
splits the MAC on its colons and yields `[{mac: "AA", ip: "BB", name: "CC"}]`,
whose encoding `"AA:BB:CC"` differs from `encode(R)`; so neither round-trip
equation holds on the code, although the encoder's own validation expects MACs
with five colons. -/
theorem c2_round_trip_fails_on_colon_macs :
    formatStaticlist [⟨"AA:BB:CC:DD:EE:FF".toList, "192.168.1.5".toList, "dns01".toList⟩] =
      "AA:BB:CC:DD:EE:FF:192.168.1.5:dns01".toList ∧
    parseStaticlist "AA:BB:CC:DD:EE:FF:192.168.1.5:dns01".toList =
      [⟨"AA".toList, "BB".toList, "CC".toList⟩] ∧
    formatStaticlist [⟨"AA".toList, "BB".toList, "CC".toList⟩] = "AA:BB:CC".toList ∧
    (formatStaticlist
        (parseStaticlist
          (formatStaticlist [⟨"AA:BB:CC:DD:EE:FF".toList, "192.168.1.5".toList, "dns01".toList⟩])) ==
      formatStaticlist [⟨"AA:BB:CC:DD:EE:FF".toList, "192.168.1.5".toList, "dns01".toList⟩]) = false := by
  refine ⟨by decide, by decide, by decide, by decide⟩

/-- C6: the single-entry add/update never silently emits empty output: whenever
the operation reaches the write step (the `Except.ok` branch carrying the
`dhcp_staticlist` payload), the payload is non-empty; a would-be-empty final
string is turned into an immediately raised `ValueError` (the `Except.error`
branch) before any command is sent to the router. -/
theorem c6_no_silent_empty_write (raw mac ip name out : List Char)
    (h : updateResult raw mac ip name = Except.ok out) : out.isEmpty = false := by
  simp only [updateResult] at h
  by_cases he : (updateStaticlist raw mac ip name).isEmpty
  · rw [if_pos he] at h
    exact absurd h (by simp)
  · rw [if_neg he] at h
    cases h
    exact Bool.not_eq_true _ ▸ he

/-- Witness for C6 at a concrete input: updating an empty list with candidate
`(aa, 192.168.1.5, x)` reaches the write step, so its payload is non-empty. -/
theorem c6_no_silent_empty_write_witness :
    ("AA:192.168.1.5:x".toList).isEmpty = false :=
  c6_no_silent_empty_write [] "aa".toList "192.168.1.5".toList "x".toList
    "AA:192.168.1.5:x".toList (by rfl)

/-- C10: whenever the upper-cased candidate MAC followed by `:` occurs as a
substring of the raw string but no tab-separated entry of it starts with that
prefix, the single-entry add/update sends the existing string back unchanged —
the candidate is neither appended nor used to update any entry — and the
operation reports success (the `Except.ok` branch, which the HTTP handler
turns into a success response). -/
theorem c10_substring_without_entry_is_noop (raw mac ip name : List Char)
    (hsub : containsChars raw (pyUpper mac ++ [':']) = true)
    (hents : ∀ e ∈ splitOnChar '\t' raw, startsWithChars e (pyUpper mac ++ [':']) = false) :
    updateResult raw mac ip name = Except.ok raw := by
  have hne : raw ≠ [] := ne_nil_of_containsChars_macSearch raw mac hsub
  simp only [updateResult, updateStaticlist, hsub, if_pos,
    updateEntries_eq_none _ _ _ hents]
  simp [hne]

/-- Witness for C10 at a concrete input: `AA:` occurs inside the single entry
`XX:AA:1.2.3.4:n` but the entry does not start with it, so updating with
candidate `(aa, 9.9.9.9, z)` returns the raw string unchanged with success. -/
theorem c10_substring_without_entry_is_noop_witness :
    updateResult "XX:AA:1.2.3.4:n".toList "aa".toList "9.9.9.9".toList "z".toList =
      Except.ok "XX:AA:1.2.3.4:n".toList :=
  c10_substring_without_entry_is_noop "XX:AA:1.2.3.4:n".toList "aa".toList
    "9.9.9.9".toList "z".toList (by decide) (by decide)

/-- C3 counterexample: the claim says the single-entry reconcile matches the
candidate's MAC against existing records case-insensitively and, on a match,
replaces that record's ip and name in place.  Concretely, for the existing
list `"aa:bb:cc:dd:ee:ff:192.168.1.5:dns01"` (one record whose MAC equals the
candidate's case-insensitively) and candidate
`(aa:bb:cc:dd:ee:ff, 192.168.1.9, dns01-new)`, the claim predicts a single
updated record; the code instead matches case-sensitively against the
upper-cased candidate MAC, finds nothing, and appends a duplicate entry,
leaving the old ip and name untouched — the output has two tab-separated
entries. -/
theorem c3_case_insensitive_match_counterexample :
    updateStaticlist "aa:bb:cc:dd:ee:ff:192.168.1.5:dns01".toList
        "aa:bb:cc:dd:ee:ff".toList "192.168.1.9".toList "dns01-new".toList =
      "aa:bb:cc:dd:ee:ff:192.168.1.5:dns01\tAA:BB:CC:DD:EE:FF:192.168.1.9:dns01-new".toList ∧
    (splitOnChar '\t'
        (updateStaticlist "aa:bb:cc:dd:ee:ff:192.168.1.5:dns01".toList
          "aa:bb:cc:dd:ee:ff".toList "192.168.1.9".toList "dns01-new".toList)).length = 2 := by
  constructor <;> decide

/-- C3 (amended): the single-entry reconcile upper-cases the candidate MAC and
matches case-sensitively on the raw string: (1) if `MAC:` does not occur as a
substring of raw, the entry `MAC:ip:name` is appended at the end (alone when
raw is empty); (2) if `MAC:` occurs and some tab-separated entry starts with
`MAC:`, the first such entry is replaced by `MAC:ip:name` in place, every
other entry keeping its position; (3) if `MAC:` occurs but no entry starts
with it, the list is returned unchanged. -/
theorem c3_update_characterization (raw mac ip name : List Char) :
    (containsChars raw (pyUpper mac ++ [':']) = false →
      updateStaticlist raw mac ip name =
        if raw.isEmpty then pyUpper mac ++ [':'] ++ ip ++ [':'] ++ name
        else raw ++ ['\t'] ++ (pyUpper mac ++ [':'] ++ ip ++ [':'] ++ name)) ∧
    (∀ (before : List (List Char)) (e : List Char) (after : List (List Char)),
      splitOnChar '\t' raw = before ++ e :: after →
      (∀ b ∈ before, startsWithChars b (pyUpper mac ++ [':']) = false) →
      startsWithChars e (pyUpper mac ++ [':']) = true →
      containsChars raw (pyUpper mac ++ [':']) = true →
      updateStaticlist raw mac ip name =
        joinWith ['\t'] (before ++ (pyUpper mac ++ [':'] ++ ip ++ [':'] ++ name) :: after)) ∧
    (containsChars raw (pyUpper mac ++ [':']) = true →
      (∀ e ∈ splitOnChar '\t' raw, startsWithChars e (pyUpper mac ++ [':']) = false) →
      updateStaticlist raw mac ip name = raw) := by
  refine ⟨fun hcont => ?_, fun before e after hsplit hb he hcont => ?_, fun hcont hents => ?_⟩
  · simp [updateStaticlist, hcont]
  · simp only [updateStaticlist, hcont, if_pos]
    rw [hsplit, updateEntries_replace _ _ _ _ _ hb he]
  · simp only [updateStaticlist, hcont, if_pos,
      updateEntries_eq_none _ _ _ hents]

/-- Witness for C3 (amended), exercising all three cases at concrete inputs:
appending to `BB:1:n`, replacing the single entry of `AA:1:n` in place, and
leaving `ZZ:AA:2:q` unchanged. -/
theorem c3_update_characterization_witness :
    updateStaticlist "BB:1:n".toList "aa".toList "2.2.2.2".toList "m".toList =
      "BB:1:n".toList ++ ['\t'] ++
        (pyUpper "aa".toList ++ [':'] ++ "2.2.2.2".toList ++ [':'] ++ "m".toList) ∧
    updateStaticlist "AA:1:n".toList "aa".toList "3.3.3.3".toList "k".toList =
      joinWith ['\t']
        ([] ++ (pyUpper "aa".toList ++ [':'] ++ "3.3.3.3".toList ++ [':'] ++ "k".toList) :: []) ∧
    updateStaticlist "ZZ:AA:2:q".toList "aa".toList "4.4.4.4".toList "w".toList =
      "ZZ:AA:2:q".toList := by
  refine ⟨?_, ?_, ?_⟩
  · exact (c3_update_characterization "BB:1:n".toList "aa".toList "2.2.2.2".toList
      "m".toList).1 (by decide)
  · exact (c3_update_characterization "AA:1:n".toList "aa".toList "3.3.3.3".toList
      "k".toList).2.1 [] "AA:1:n".toList [] (by decide) (by decide) (by decide) (by decide)
  · exact (c3_update_characterization "ZZ:AA:2:q".toList "aa".toList "4.4.4.4".toList
      "w".toList).2.2 (by decide) (by decide)

/-- C5: whenever the raw input contains both `<` and `>`, decode tries the
bracketed grammar first and falls through to the colon phase (tried only when
raw also contains `:`) exactly when the bracketed grammar yields zero records;
and decoding `"<AA:BB:CC:DD:EE:FF>192.168.1.5>dns01"` yields exactly the one
record `{mac: AA:BB:CC:DD:EE:FF, ip: 192.168.1.5, name: dns01}`. -/
theorem c5_bracketed_grammar_priority :
    (∀ raw : List Char, raw.contains '<' = true → raw.contains '>' = true →
      parseStaticlist raw =
        if (parseBracketed raw).isEmpty then
          (if raw.contains ':' then parseColon raw else [])
        else parseBracketed raw) ∧
    parseStaticlist "<AA:BB:CC:DD:EE:FF>192.168.1.5>dns01".toList =
      [⟨"AA:BB:CC:DD:EE:FF".toList, "192.168.1.5".toList, "dns01".toList⟩] := by
  constructor
  · intro raw h1 h2
    have hmem : '<' ∈ raw := List.elem_iff.mp h1
    have hstrip : pyStrip raw ≠ [] := pyStrip_ne_nil_of_mem hmem (by decide)
    simp only [parseStaticlist, if_neg hstrip, h1, h2, Bool.and_self]
    by_cases hb : (parseBracketed raw).isEmpty
    · simp [hb]
    · simp [hb]
  · decide

/-- Witness for C5 at concrete inputs for both priority cases: on
`"<AA>9.9.9.9>r"` the bracketed grammar succeeds and is taken; on
`"<<>>AA:1:n"` the bracketed grammar yields zero records and decode falls
through to the colon grammar. -/
theorem c5_bracketed_grammar_priority_witness :
    parseStaticlist "<AA>9.9.9.9>r".toList = parseBracketed "<AA>9.9.9.9>r".toList ∧
    parseStaticlist "<<>>AA:1:n".toList = parseColon "<<>>AA:1:n".toList :=
  ⟨c5_bracketed_grammar_priority.1 "<AA>9.9.9.9>r".toList (by decide) (by decide),
   c5_bracketed_grammar_priority.1 "<<>>AA:1:n".toList (by decide) (by decide)⟩

/-- C9: bulk reconciliation of an empty existing sequence with the single
candidate `{mac: "", ip: 192.168.1.231, name: pterodactyl}` (IP matching is
unconditional in the code) returns `addedCount = 0`, `skippedCount = 1` and an
unchanged empty output sequence: candidates with an empty MAC are never
appended. -/
theorem c9_scenario4_empty_mac_skipped :
    bulkReconcile [] [⟨[], "192.168.1.231".toList, "pterodactyl".toList⟩] = ([], 0, 1) := by
  decide

/-- The bulk loop only ever appends to the running reservation list. -/
theorem bulkAux_fst (cs : List Candidate) :
    ∀ (l : List Reservation) (a s : Nat),
      (bulkAux (l, a, s) cs).1 = l ++ newlyAdded l cs := by
  induction cs with
  | nil => intro l a s; simp [bulkAux, newlyAdded]
  | cons c cs ih =>
      intro l a s
      by_cases hm : c.mac.isEmpty
      · simp only [bulkAux, newlyAdded, if_pos hm]
        exact ih l a (s + 1)
      · by_cases hx : l.any fun r => pyLower r.mac == pyLower c.mac || r.ip == c.ip
        · simp only [bulkAux, newlyAdded, if_neg hm, if_pos hx]
          exact ih l a s
        · simp only [bulkAux, newlyAdded, if_neg hm, if_neg hx]
          rw [ih]
          simp

/-- C7: bulk reconciliation is additive-only: the output list is exactly the
existing list, unchanged and in its original order, followed by the newly
added records in candidate-list order; no pre-existing record's ip or name is
touched and matching candidates are skipped rather than updated (they
contribute nothing to the appended part). -/
theorem c7_bulk_additive_only (existing : List Reservation) (cands : List Candidate) :
    (bulkReconcile existing cands).1 = existing ++ newlyAdded existing cands :=
  bulkAux_fst cands existing 0 0

/-- Appending a record whose lower-cased MAC differs from every record of a
unique list keeps the list unique. -/
theorem macsUnique_append_one (l : List Reservation) (r : Reservation)
    (hl : macsUnique l = true)
    (hx : ∀ x ∈ l, (pyLower x.mac == pyLower r.mac) = false) :
    macsUnique (l ++ [r]) = true := by
  induction l with
  | nil => simp [macsUnique]
  | cons y ys ih =>
      simp only [macsUnique, Bool.and_eq_true, List.all_eq_true] at hl
      simp only [List.cons_append, macsUnique, Bool.and_eq_true, List.all_eq_true]
      refine ⟨fun s hs => ?_, ih hl.2 fun x hx2 => hx x (by simp [hx2])⟩
      rcases List.mem_append.mp hs with h | h
      · exact hl.1 s h
      · simp only [List.mem_singleton] at h
        subst h
        simp [hx y (by simp)]

/-- The bulk loop preserves case-insensitive MAC uniqueness of the running
list: a candidate is only appended when its lower-cased MAC (and its IP)
matches no record already in the list, and it is appended upper-cased. -/
theorem bulkAux_macsUnique (cs : List Candidate) :
    ∀ (l : List Reservation) (a s : Nat), macsUnique l = true →
      macsUnique (bulkAux (l, a, s) cs).1 = true := by
  induction cs with
  | nil => intro l a s hl; exact hl
  | cons c cs ih =>
      intro l a s hl
      by_cases hm : c.mac.isEmpty
      · simp only [bulkAux, if_pos hm]
        exact ih l a (s + 1) hl
      · by_cases hx : l.any fun r => pyLower r.mac == pyLower c.mac || r.ip == c.ip
        · simp only [bulkAux, if_neg hm, if_pos hx]
          exact ih l a s hl
        · simp only [bulkAux, if_neg hm, if_neg hx]
          refine ih _ (a + 1) s (macsUnique_append_one l _ hl fun x hmem => ?_)
          have hx2 := Bool.eq_false_iff.mpr hx
          rw [List.any_eq_false] at hx2
          have hmatch := hx2 x hmem
          simp only [Bool.or_eq_true, not_or] at hmatch
          show (pyLower x.mac == pyLower (pyUpper c.mac)) = false
          rw [pyLower_pyUpper]
          exact Bool.eq_false_iff.mpr hmatch.1

/-- C4 counterexample: the claim covers single-entry reconciliation as well,
but there the match is case-sensitive on the raw string: starting from the
raw list `"aa:bb:cc:dd:ee:ff:192.168.1.7:web01"` — whose decoded record
sequence has pairwise distinct (case-insensitive) MACs — adding the
well-formed candidate `(aa:bb:cc:dd:ee:ff, 192.168.1.8, web02)` appends a
duplicate entry, and the decoded result contains two records with the same
MAC `AA` (the decoder upper-cases on read), violating the uniqueness
invariant. -/
theorem c4_single_entry_counterexample :
    macsUnique (parseStaticlist "aa:bb:cc:dd:ee:ff:192.168.1.7:web01".toList) = true ∧
    macsUnique
        (parseStaticlist
          (updateStaticlist "aa:bb:cc:dd:ee:ff:192.168.1.7:web01".toList
            "aa:bb:cc:dd:ee:ff".toList "192.168.1.8".toList "web02".toList)) = false := by
  constructor <;> decide

/-- C4 (amended): bulk reconciliation preserves the invariant: if the existing
sequence contains no two records with case-insensitively equal MACs, neither
does the sequence it produces, for every candidate list; single-entry
reconciliation does not guarantee this because its MAC match is
case-sensitive. -/
theorem c4_bulk_preserves_mac_uniqueness (existing : List Reservation)
    (cands : List Candidate) (h : macsUnique existing = true) :
    macsUnique (bulkReconcile existing cands).1 = true :=
  bulkAux_macsUnique cands existing 0 0 h

/-- Witness for C4 (amended) at a concrete input: one existing record and two
candidates, one matching case-insensitively (skipped) and one new
(appended); the result keeps MACs unique. -/
theorem c4_bulk_preserves_mac_uniqueness_witness :
    macsUnique
        (bulkReconcile [⟨"AA:BB:CC:DD:EE:FF".toList, "192.168.1.5".toList, "dns01".toList⟩]
          [⟨"aa:bb:cc:dd:ee:ff".toList, "192.168.1.9".toList, "dup".toList⟩,
           ⟨"bc:24:11:aa:1d:29".toList, "192.168.1.232".toList, "velocity".toList⟩]).1 = true :=
  c4_bulk_preserves_mac_uniqueness
    [⟨"AA:BB:CC:DD:EE:FF".toList, "192.168.1.5".toList, "dns01".toList⟩]
    [⟨"aa:bb:cc:dd:ee:ff".toList, "192.168.1.9".toList, "dup".toList⟩,
     ⟨"bc:24:11:aa:1d:29".toList, "192.168.1.232".toList, "velocity".toList⟩]
    (by decide)

/-- The skip counter never influences the reservation list or the added
counter produced by the bulk loop. -/
theorem bulkAux_skip_independent (cs : List Candidate) :
    ∀ (l : List Reservation) (a s t : Nat),
      (bulkAux (l, a, s) cs).1 = (bulkAux (l, a, t) cs).1 ∧
      (bulkAux (l, a, s) cs).2.1 = (bulkAux (l, a, t) cs).2.1 := by
  induction cs with
  | nil => intro l a s t; exact ⟨rfl, rfl⟩
  | cons c cs ih =>
      intro l a s t
      by_cases hm : c.mac.isEmpty
      · simp only [bulkAux, if_pos hm]
        exact ih l a (s + 1) (t + 1)
      · by_cases hx : l.any fun r => pyLower r.mac == pyLower c.mac || r.ip == c.ip
        · simp only [bulkAux, if_neg hm, if_pos hx]
          exact ih l a s t
        · simp only [bulkAux, if_neg hm, if_neg hx]
          exact ih _ (a + 1) s t

/-- Empty-MAC candidates are invisible to the bulk loop except in the skip
counter: the list and the added counter equal those of the run on the
candidates with non-empty MAC, and the skip counter counts exactly the
empty-MAC candidates. -/
theorem bulkAux_filter_empty_mac (cs : List Candidate) :
    ∀ (l : List Reservation) (a s : Nat),
      (bulkAux (l, a, s) cs).1 =
        (bulkAux (l, a, s) (cs.filter fun c => !c.mac.isEmpty)).1 ∧
      (bulkAux (l, a, s) cs).2.1 =
        (bulkAux (l, a, s) (cs.filter fun c => !c.mac.isEmpty)).2.1 ∧
      (bulkAux (l, a, s) cs).2.2 = s + cs.countP fun c => c.mac.isEmpty := by
  induction cs with
  | nil => intro l a s; exact ⟨rfl, rfl, by simp [bulkAux]⟩
  | cons c cs ih =>
      intro l a s
      by_cases hm : c.mac.isEmpty
      · have hfil : (c :: cs).filter (fun c => !c.mac.isEmpty) =
            cs.filter fun c => !c.mac.isEmpty := by
          simp [List.filter_cons, hm]
        have hcnt : ((c :: cs).countP fun c => c.mac.isEmpty) =
            (cs.countP fun c => c.mac.isEmpty) + 1 := by
          simp [List.countP_cons, hm]
        rw [hfil, hcnt]
        simp only [bulkAux, if_pos hm]
        obtain ⟨h1, h2, h3⟩ := ih l a (s + 1)
        obtain ⟨g1, g2⟩ :=
          bulkAux_skip_independent (cs.filter fun c => !c.mac.isEmpty) l a (s + 1) s
        exact ⟨h1.trans g1, h2.trans g2, by rw [h3]; omega⟩
      · have hfil : (c :: cs).filter (fun c => !c.mac.isEmpty) =
            c :: cs.filter fun c => !c.mac.isEmpty := by
          simp [List.filter_cons, hm]
        have hcnt : ((c :: cs).countP fun c => c.mac.isEmpty) =
            cs.countP fun c => c.mac.isEmpty := by
          simp [List.countP_cons, hm]
        rw [hfil, hcnt]
        by_cases hx : l.any fun r => pyLower r.mac == pyLower c.mac || r.ip == c.ip
        · simp only [bulkAux, if_neg hm, if_pos hx]
          exact ih l a s
        · simp only [bulkAux, if_neg hm, if_neg hx]
          exact ih _ (a + 1) s

/-- C8 counterexample: the claim says a candidate lacking an IP (empty ip
field) is skipped and counted; the code only tests the MAC.  Bulk
reconciliation of an empty existing list with the single candidate
`(AA, "", x)` — non-empty MAC, empty IP — appends the record and reports
`addedCount = 1, skippedCount = 0` instead of skipping it. -/
theorem c8_empty_ip_not_skipped_counterexample :
    bulkReconcile [] [⟨"AA".toList, [], "x".toList⟩] =
      ([⟨"AA".toList, [], "x".toList⟩], 1, 0) := by
  decide

/-- C8 (amended): in bulk reconciliation every candidate lacking a MAC (empty
mac field) is skipped and counted in the skip counter, the batch continues
with the remaining candidates, and no record is appended for it: the output
list and the added counter are those of the run on the candidates with
non-empty MAC alone, and the skip counter is exactly the number of empty-MAC
candidates.  Candidates with a MAC but an empty IP are not filtered by this
check. -/
theorem c8_empty_mac_skipped_and_counted (existing : List Reservation)
    (cands : List Candidate) :
    (bulkReconcile existing cands).1 =
      (bulkReconcile existing (cands.filter fun c => !c.mac.isEmpty)).1 ∧
    (bulkReconcile existing cands).2.1 =
      (bulkReconcile existing (cands.filter fun c => !c.mac.isEmpty)).2.1 ∧
    (bulkReconcile existing cands).2.2 = cands.countP fun c => c.mac.isEmpty := by
  obtain ⟨h1, h2, h3⟩ := bulkAux_filter_empty_mac cands existing 0 0
  exact ⟨h1, h2, by simpa using h3⟩
